import Mathlib

/-!
Verification of the generic two-player minimax / alpha-beta search from
`src/src/index.ts` (functions `Minimax` and `runMinimaxAlgorithm`).

Embedding conventions:
* JS numbers are modelled as `Int` (the algorithm only compares values and
  uses the integer sentinels `±9e9`, `±9e9 ∓ 1` and `0`; no other arithmetic
  is performed on scores).
* The mutable board of type `T` is threaded explicitly: the callbacks
  `applyTransition` / `undoTransition` return the updated board instead of
  mutating in place.
* The source recursion is on `depth` increasing towards `maxDepth`; here the
  same recursion is expressed on `fuel = maxDepth - depth`, which decreases
  by one exactly when the source's `depth` increases by one, and `fuel = 0`
  corresponds to the source's `depth === maxDepth` test.
* `math.random(0, n - 1)` is modelled by an oracle `rng : Nat → Nat` and a
  draw counter threaded through the computation: the `k`-th draw in `[0, n)`
  is `rng k % n`.
-/

/-- The five caller-supplied callbacks of `runMinimaxAlgorithm`
(`src/src/index.ts`), with board mutation made explicit. -/
structure Callbacks (T U : Type) where
  calculateTransitions : T → Bool → List U
  applyTransition : T → U → T
  undoTransition : T → U → T
  calculateBoard : T → Int
  calculateEndState : T → Int

/-- The `-9e9` sentinel used for the initial `alpha` and the maximizer's
initial `best` in the source. -/
def NEG_INF : Int := -9000000000

/-- The `9e9` sentinel used for the initial `beta` and the minimizer's
initial `best` in the source. -/
def POS_INF : Int := 9000000000

/-- The value returned for a lost end state: `-9e9 + 1` (line 76). -/
def LOSS_SCORE : Int := NEG_INF + 1

/-- The value returned for a won end state: `9e9 - 1` (line 79). -/
def WIN_SCORE : Int := POS_INF - 1

/-- Result of one call of `runMinimaxAlgorithm`: the `LuaTuple` of the chosen
transition and the value, plus the explicitly threaded board state and the
random-draw counter. -/
structure MMResult (T U : Type) where
  transition : Option U
  value : Int
  board : T
  ctr : Nat

/-- The mutable locals of the `transitions.forEach` loop of
`runMinimaxAlgorithm` (lines 86-127): the board, `best`, `bestTransitions`,
`alpha`, `beta`, plus the random-draw counter. -/
structure LoopState (T U : Type) where
  board : T
  best : Int
  bts : List U
  alpha : Int
  beta : Int
  ctr : Nat

/-- The initial `best` of the loop (line 86): `-9e9` for the maximizer,
`9e9` for the minimizer. -/
def minimaxInitBest (isMax : Bool) : Int :=
  if isMax then NEG_INF else POS_INF

/-- One iteration of the `transitions.forEach` body (lines 88-127): when
`alpha > beta` the iteration is skipped (the early `return` acts as a
`continue`); otherwise the transition is applied, the algorithm recurses with
the current bounds, `best` / `bestTransitions` / `alpha` / `beta` are updated
(`push` on an exactly equal value, replace-and-tighten on a strictly better
one), and the transition is undone on whatever board the recursion left. -/
def minimaxStep {T U : Type} (isMax : Bool) (applyT undoT : T → U → T)
    (recurse : T → Int → Int → Nat → MMResult T U)
    (s : LoopState T U) (u : U) : LoopState T U :=
  if s.alpha > s.beta then s
  else
    let r := recurse (applyT s.board u) s.alpha s.beta s.ctr
    let b2 := undoT r.board u
    if r.value = s.best then
      { s with board := b2, bts := s.bts ++ [u], ctr := r.ctr }
    else if (isMax = true ∧ r.value > s.best) ∨ (isMax = false ∧ r.value < s.best) then
      { board := b2, best := r.value, bts := [u],
        alpha := if isMax then max s.alpha r.value else s.alpha,
        beta := if isMax then s.beta else min s.beta r.value,
        ctr := r.ctr }
    else
      { s with board := b2, ctr := r.ctr }

/-- The recursive engine `runMinimaxAlgorithm` (lines 53-135). Here `fuel` stands for
`maxDepth - depth`; `fuel = 0` is the source's `depth === maxDepth` test.
Note the source computes `transitions` (line 70) before the end-state check
(line 73); in this pure value-level embedding the two reads commute, and the
call order is captured separately by `runMinimaxAlgorithmTr` below. -/
def runMinimaxAlgorithm {T U : Type} (cb : Callbacks T U) (rng : Nat → Nat) :
    Nat → T → Bool → Int → Int → Nat → MMResult T U
  | 0, b, _, _, _, k => ⟨none, cb.calculateBoard b, b, k⟩
  | fuel + 1, b, isMax, alpha, beta, k =>
    let transitions := cb.calculateTransitions b isMax
    let isEndState := cb.calculateEndState b
    if isEndState < 0 then ⟨none, LOSS_SCORE, b, k⟩
    else if isEndState > 0 then ⟨none, WIN_SCORE, b, k⟩
    else if transitions.isEmpty then ⟨none, 0, b, k⟩
    else
      let s := transitions.foldl
        (minimaxStep isMax cb.applyTransition cb.undoTransition
          (fun b' a' b'' k' => runMinimaxAlgorithm cb rng fuel b' (!isMax) a' b'' k'))
        ⟨b, minimaxInitBest isMax, [], alpha, beta, k⟩
      if s.bts.isEmpty then ⟨none, s.best, s.board, s.ctr⟩
      else ⟨s.bts.get? (rng s.ctr % s.bts.length), s.best, s.board, s.ctr + 1⟩

/-- The driver `Minimax` (lines 27-51): one call of the recursive engine at
depth 0 (here: full fuel `maxDepth`) with the maximizing role,
`alpha = -9e9`, `beta = 9e9`, returning only the transition component. -/
def Minimax {T U : Type} (cb : Callbacks T U) (rng : Nat → Nat)
    (board : T) (maxDepth : Nat) : Option U :=
  (runMinimaxAlgorithm cb rng maxDepth board true NEG_INF POS_INF 0).transition

/-- Exhaustive full minimax over the same game tree, with no pruning — the
reference value the spec's alpha-beta equivalence property compares against.
Written from the spec's description of the search tree: depth-limit leaves
score `calculateBoard`, lost/won end states score `LOSS_SCORE`/`WIN_SCORE`,
a moveless neutral node scores 0, and an interior node takes the
maximum (maximizer) or minimum (minimizer) of all children's values. -/
def minimaxValue {T U : Type} (cb : Callbacks T U) : Nat → T → Bool → Int
  | 0, b, _ => cb.calculateBoard b
  | fuel + 1, b, isMax =>
    let e := cb.calculateEndState b
    if e < 0 then LOSS_SCORE
    else if e > 0 then WIN_SCORE
    else
      match cb.calculateTransitions b isMax with
      | [] => 0
      | u :: us =>
        if isMax then
          (us.map (fun t => minimaxValue cb fuel (cb.applyTransition b t) (!isMax))).foldl
            max (minimaxValue cb fuel (cb.applyTransition b u) (!isMax))
        else
          (us.map (fun t => minimaxValue cb fuel (cb.applyTransition b t) (!isMax))).foldl
            min (minimaxValue cb fuel (cb.applyTransition b u) (!isMax))

/-! ### Instrumented variant recording the callback call order

`runMinimaxAlgorithmTr` is the same recursion as `runMinimaxAlgorithm` but
additionally returns, in order, which of the callbacks `calculateTransitions`
(`genCall`), `calculateEndState` (`endCall`) and `calculateBoard`
(`boardCall`) were invoked.  It exists to make the evaluation order of
lines 70 and 73 of the source observable: `transitions` is computed on
line 70, before the end-state check on line 73, in every non-leaf call. -/

/-- Tags for the observable callback invocations of the engine. -/
inductive CEvent
  | genCall
  | endCall
  | boardCall
  deriving DecidableEq

/-- Same as `minimaxStep`, with the recursion's callback-invocation events appended
to the running trace. -/
def minimaxStepTr {T U : Type} (isMax : Bool) (applyT undoT : T → U → T)
    (recurse : T → Int → Int → Nat → MMResult T U × List CEvent)
    (s : LoopState T U × List CEvent) (u : U) : LoopState T U × List CEvent :=
  if s.1.alpha > s.1.beta then s
  else
    let r := recurse (applyT s.1.board u) s.1.alpha s.1.beta s.1.ctr
    let b2 := undoT r.1.board u
    (if r.1.value = s.1.best then
      { s.1 with board := b2, bts := s.1.bts ++ [u], ctr := r.1.ctr }
     else if (isMax = true ∧ r.1.value > s.1.best) ∨ (isMax = false ∧ r.1.value < s.1.best) then
      { board := b2, best := r.1.value, bts := [u],
        alpha := if isMax then max s.1.alpha r.1.value else s.1.alpha,
        beta := if isMax then s.1.beta else min s.1.beta r.1.value,
        ctr := r.1.ctr }
     else
      { s.1 with board := b2, ctr := r.1.ctr },
     s.2 ++ r.2)

/-- The engine `runMinimaxAlgorithm` instrumented with the invocation trace of
`calculateTransitions` / `calculateEndState` / `calculateBoard`.  A leaf call
(`depth === maxDepth`) only evaluates the board; every other call first
computes `transitions` (source line 70) and then the end-state (line 73). -/
def runMinimaxAlgorithmTr {T U : Type} (cb : Callbacks T U) (rng : Nat → Nat) :
    Nat → T → Bool → Int → Int → Nat → MMResult T U × List CEvent
  | 0, b, _, _, _, k => (⟨none, cb.calculateBoard b, b, k⟩, [CEvent.boardCall])
  | fuel + 1, b, isMax, alpha, beta, k =>
    let transitions := cb.calculateTransitions b isMax
    let isEndState := cb.calculateEndState b
    if isEndState < 0 then (⟨none, LOSS_SCORE, b, k⟩, [CEvent.genCall, CEvent.endCall])
    else if isEndState > 0 then (⟨none, WIN_SCORE, b, k⟩, [CEvent.genCall, CEvent.endCall])
    else if transitions.isEmpty then (⟨none, 0, b, k⟩, [CEvent.genCall, CEvent.endCall])
    else
      let s := transitions.foldl
        (minimaxStepTr isMax cb.applyTransition cb.undoTransition
          (fun b' a' b'' k' => runMinimaxAlgorithmTr cb rng fuel b' (!isMax) a' b'' k'))
        (⟨b, minimaxInitBest isMax, [], alpha, beta, k⟩,
         [CEvent.genCall, CEvent.endCall])
      if s.1.bts.isEmpty then (⟨none, s.1.best, s.1.board, s.1.ctr⟩, s.2)
      else (⟨s.1.bts.get? (rng s.1.ctr % s.1.bts.length), s.1.best, s.1.board, s.1.ctr + 1⟩, s.2)

/-! ### Concrete game trees used to instantiate and refute claims

All of them use a stack board: a transition (a `Nat`) is applied by pushing
it onto the board list and undone by popping it, so apply/undo form an exact
inverse pair. -/

/-- A fixed random oracle (always drawing 0). -/
def rngZero : Nat → Nat := fun _ => 0

/-- Root moves `{0, 1, 2}` lead to child boards scoring `{5, 9, 9}`; neutral
end states everywhere. -/
def cbTri : Callbacks (List Nat) Nat where
  calculateTransitions := fun b _ => if b = [] then [0, 1, 2] else []
  applyTransition := fun b u => u :: b
  undoTransition := fun b _ => b.tail
  calculateBoard := fun b => if b = [0] then 5 else 9
  calculateEndState := fun _ => 0

/-- Two root moves whose child heuristics `10^10` and `2 * 10^10` lie above
the `9e9` sentinel. -/
def cbBig : Callbacks (List Nat) Nat where
  calculateTransitions := fun b _ => if b = [] then [0, 1] else []
  applyTransition := fun b u => u :: b
  undoTransition := fun b _ => b.tail
  calculateBoard := fun b => if b = [0] then 10000000000 else 20000000000
  calculateEndState := fun _ => 0

/-- One root move whose child heuristic `-10^10` lies below the `-9e9`
sentinel. -/
def cbLow : Callbacks (List Nat) Nat where
  calculateTransitions := fun b _ => if b = [] then [0] else []
  applyTransition := fun b u => u :: b
  undoTransition := fun b _ => b.tail
  calculateBoard := fun b => if b = [] then 0 else -10000000000
  calculateEndState := fun _ => 0

/-- A position already lost (`calculateEndState = -3` everywhere) that still
has a legal move. -/
def cbLost : Callbacks (List Nat) Nat where
  calculateTransitions := fun b _ => if b = [] then [0] else []
  applyTransition := fun b u => u :: b
  undoTransition := fun b _ => b.tail
  calculateBoard := fun _ => 7
  calculateEndState := fun _ => -3

/-- A position already won (`calculateEndState = 2` everywhere) that still
has a legal move. -/
def cbWon : Callbacks (List Nat) Nat where
  calculateTransitions := fun b _ => if b = [] then [0] else []
  applyTransition := fun b u => u :: b
  undoTransition := fun b _ => b.tail
  calculateBoard := fun _ => 7
  calculateEndState := fun _ => 2

/-- A stalemate: neutral end state and no legal moves anywhere. -/
def cbStale : Callbacks (List Nat) Nat where
  calculateTransitions := fun _ _ => []
  applyTransition := fun b u => u :: b
  undoTransition := fun b _ => b.tail
  calculateBoard := fun _ => 4
  calculateEndState := fun _ => 0

/-! ### Generic fold helpers for max/min over lists of Int -/

theorem foldl_max_init (l : List Int) : ∀ a b : Int,
    l.foldl max (max a b) = max a (l.foldl max b) := by
  induction l with
  | nil => intro a b; rfl
  | cons x xs ih =>
    intro a b
    simp only [List.foldl_cons]
    rw [show max (max a b) x = max a (max b x) by omega, ih]

theorem foldl_min_init (l : List Int) : ∀ a b : Int,
    l.foldl min (min a b) = min a (l.foldl min b) := by
  induction l with
  | nil => intro a b; rfl
  | cons x xs ih =>
    intro a b
    simp only [List.foldl_cons]
    rw [show min (min a b) x = min a (min b x) by omega, ih]

theorem foldl_max_mono (l : List Int) : ∀ a b : Int, a ≤ b →
    l.foldl max a ≤ l.foldl max b := by
  induction l with
  | nil => intro a b h; exact h
  | cons x xs ih =>
    intro a b h
    simp only [List.foldl_cons]
    exact ih _ _ (by omega)

theorem foldl_min_mono (l : List Int) : ∀ a b : Int, a ≤ b →
    l.foldl min a ≤ l.foldl min b := by
  induction l with
  | nil => intro a b h; exact h
  | cons x xs ih =>
    intro a b h
    simp only [List.foldl_cons]
    exact ih _ _ (by omega)

theorem le_foldl_max (l : List Int) : ∀ a : Int, a ≤ l.foldl max a := by
  induction l with
  | nil => intro a; exact le_refl a
  | cons x xs ih =>
    intro a
    simp only [List.foldl_cons]
    exact le_trans (by omega : a ≤ max a x) (ih _)

theorem foldl_min_le (l : List Int) : ∀ a : Int, l.foldl min a ≤ a := by
  induction l with
  | nil => intro a; exact le_refl a
  | cons x xs ih =>
    intro a
    simp only [List.foldl_cons]
    exact le_trans (ih _) (by omega : min a x ≤ a)

theorem foldl_max_le_of_forall (l : List Int) : ∀ a c : Int, a ≤ c →
    (∀ x ∈ l, x ≤ c) → l.foldl max a ≤ c := by
  induction l with
  | nil => intro a c h _; exact h
  | cons x xs ih =>
    intro a c h hx
    simp only [List.foldl_cons]
    exact ih _ _ (by have := hx x (List.mem_cons_self x xs); omega)
      (fun y hy => hx y (List.mem_cons_of_mem x hy))

theorem le_foldl_min_of_forall (l : List Int) : ∀ a c : Int, c ≤ a →
    (∀ x ∈ l, c ≤ x) → c ≤ l.foldl min a := by
  induction l with
  | nil => intro a c h _; exact h
  | cons x xs ih =>
    intro a c h hx
    simp only [List.foldl_cons]
    exact ih _ _ (by have := hx x (List.mem_cons_self x xs); omega)
      (fun y hy => hx y (List.mem_cons_of_mem x hy))

/-! ### Characterization of one loop iteration -/

section StepLemmas

variable {T U : Type} (isMax : Bool) (applyT undoT : T → U → T)
  (recurse : T → Int → Int → Nat → MMResult T U)

theorem minimaxStep_prune {s : LoopState T U} {u : U} (h : s.alpha > s.beta) :
    minimaxStep isMax applyT undoT recurse s u = s := by
  simp [minimaxStep, h]

theorem minimaxStep_eq_best {s : LoopState T U} {u : U}
    (h : ¬ s.alpha > s.beta)
    (hv : (recurse (applyT s.board u) s.alpha s.beta s.ctr).value = s.best) :
    minimaxStep isMax applyT undoT recurse s u =
      { s with
        board := undoT (recurse (applyT s.board u) s.alpha s.beta s.ctr).board u,
        bts := s.bts ++ [u],
        ctr := (recurse (applyT s.board u) s.alpha s.beta s.ctr).ctr } := by
  simp [minimaxStep, h, hv]

theorem minimaxStep_max_gt {s : LoopState T U} {u : U}
    (h : ¬ s.alpha > s.beta)
    (hv : (recurse (applyT s.board u) s.alpha s.beta s.ctr).value > s.best) :
    minimaxStep true applyT undoT recurse s u =
      { board := undoT (recurse (applyT s.board u) s.alpha s.beta s.ctr).board u,
        best := (recurse (applyT s.board u) s.alpha s.beta s.ctr).value,
        bts := [u],
        alpha := max s.alpha (recurse (applyT s.board u) s.alpha s.beta s.ctr).value,
        beta := s.beta,
        ctr := (recurse (applyT s.board u) s.alpha s.beta s.ctr).ctr } := by
  simp [minimaxStep, h, show ¬ (recurse (applyT s.board u) s.alpha s.beta s.ctr).value = s.best by omega, hv]

theorem minimaxStep_max_lt {s : LoopState T U} {u : U}
    (h : ¬ s.alpha > s.beta)
    (hv : (recurse (applyT s.board u) s.alpha s.beta s.ctr).value < s.best) :
    minimaxStep true applyT undoT recurse s u =
      { s with
        board := undoT (recurse (applyT s.board u) s.alpha s.beta s.ctr).board u,
        ctr := (recurse (applyT s.board u) s.alpha s.beta s.ctr).ctr } := by
  simp [minimaxStep, h, show ¬ (recurse (applyT s.board u) s.alpha s.beta s.ctr).value = s.best by omega, hv]
  omega

theorem minimaxStep_min_lt {s : LoopState T U} {u : U}
    (h : ¬ s.alpha > s.beta)
    (hv : (recurse (applyT s.board u) s.alpha s.beta s.ctr).value < s.best) :
    minimaxStep false applyT undoT recurse s u =
      { board := undoT (recurse (applyT s.board u) s.alpha s.beta s.ctr).board u,
        best := (recurse (applyT s.board u) s.alpha s.beta s.ctr).value,
        bts := [u],
        alpha := s.alpha,
        beta := min s.beta (recurse (applyT s.board u) s.alpha s.beta s.ctr).value,
        ctr := (recurse (applyT s.board u) s.alpha s.beta s.ctr).ctr } := by
  rw [minimaxStep, if_neg h]
  rw [if_neg (show ¬ (recurse (applyT s.board u) s.alpha s.beta s.ctr).value = s.best by omega)]
  rw [if_pos (Or.inr ⟨rfl, hv⟩ :
    (false = true ∧ (recurse (applyT s.board u) s.alpha s.beta s.ctr).value > s.best) ∨
    (false = false ∧ (recurse (applyT s.board u) s.alpha s.beta s.ctr).value < s.best))]
  simp

theorem minimaxStep_min_gt {s : LoopState T U} {u : U}
    (h : ¬ s.alpha > s.beta)
    (hv : (recurse (applyT s.board u) s.alpha s.beta s.ctr).value > s.best) :
    minimaxStep false applyT undoT recurse s u =
      { s with
        board := undoT (recurse (applyT s.board u) s.alpha s.beta s.ctr).board u,
        ctr := (recurse (applyT s.board u) s.alpha s.beta s.ctr).ctr } := by
  rw [minimaxStep, if_neg h]
  rw [if_neg (show ¬ (recurse (applyT s.board u) s.alpha s.beta s.ctr).value = s.best by omega)]
  rw [if_neg (show ¬ ((false = true ∧ (recurse (applyT s.board u) s.alpha s.beta s.ctr).value > s.best) ∨
    (false = false ∧ (recurse (applyT s.board u) s.alpha s.beta s.ctr).value < s.best)) by
      rintro (⟨hc, _⟩ | ⟨_, hc⟩) <;> first | exact Bool.noConfusion hc | omega)]

end StepLemmas

section LoopInvariants

variable {T U : Type} {isMax : Bool} {applyT undoT : T → U → T}
  {recurse : T → Int → Int → Nat → MMResult T U}

theorem foldl_step_prune {s : LoopState T U} (h : s.alpha > s.beta) :
    ∀ l : List U, l.foldl (minimaxStep isMax applyT undoT recurse) s = s := by
  intro l
  induction l with
  | nil => rfl
  | cons u rest ih =>
    rw [List.foldl_cons, minimaxStep_prune isMax applyT undoT recurse h, ih]

theorem minimaxStep_board
    (hrec : ∀ b a' b' k, (recurse b a' b' k).board = b)
    (hundo : ∀ b u, undoT (applyT b u) u = b)
    (s : LoopState T U) (u : U) :
    (minimaxStep isMax applyT undoT recurse s u).board = s.board := by
  rw [minimaxStep]
  split
  · rfl
  · simp only []
    split
    · simp [hrec, hundo]
    · split <;> simp [hrec, hundo]

theorem foldl_step_board
    (hrec : ∀ b a' b' k, (recurse b a' b' k).board = b)
    (hundo : ∀ b u, undoT (applyT b u) u = b) :
    ∀ (l : List U) (s : LoopState T U),
      (l.foldl (minimaxStep isMax applyT undoT recurse) s).board = s.board := by
  intro l
  induction l with
  | nil => intro s; rfl
  | cons u rest ih =>
    intro s
    rw [List.foldl_cons, ih, minimaxStep_board hrec hundo]

theorem minimaxStep_bts_sub {x : U} (s : LoopState T U) (u : U)
    (hx : x ∈ (minimaxStep isMax applyT undoT recurse s u).bts) :
    x ∈ s.bts ∨ x = u := by
  rw [minimaxStep] at hx
  revert hx
  split
  · exact fun hx => Or.inl hx
  · simp only []
    split
    · intro hx
      rcases List.mem_append.mp hx with h | h
      · exact Or.inl h
      · exact Or.inr (List.mem_singleton.mp h)
    · split
      · intro hx
        exact Or.inr (List.mem_singleton.mp hx)
      · exact fun hx => Or.inl hx

theorem foldl_step_bts_sub {x : U} :
    ∀ (l : List U) (s : LoopState T U),
      x ∈ (l.foldl (minimaxStep isMax applyT undoT recurse) s).bts →
      x ∈ s.bts ∨ x ∈ l := by
  intro l
  induction l with
  | nil => intro s hx; exact Or.inl hx
  | cons u rest ih =>
    intro s hx
    rw [List.foldl_cons] at hx
    rcases ih _ hx with h | h
    · rcases minimaxStep_bts_sub s u h with h' | h'
      · exact Or.inl h'
      · exact Or.inr (h' ▸ List.mem_cons_self u rest)
    · exact Or.inr (List.mem_cons_of_mem u h)

theorem minimaxStep_bts_ne (s : LoopState T U) (u : U) (h : s.bts ≠ []) :
    (minimaxStep isMax applyT undoT recurse s u).bts ≠ [] := by
  rw [minimaxStep]
  split
  · exact h
  · simp only []
    split
    · simp
    · split
      · simp
      · exact h

theorem foldl_step_bts_ne :
    ∀ (l : List U) (s : LoopState T U), s.bts ≠ [] →
      (l.foldl (minimaxStep isMax applyT undoT recurse) s).bts ≠ [] := by
  intro l
  induction l with
  | nil => intro s h; exact h
  | cons u rest ih =>
    intro s h
    rw [List.foldl_cons]
    exact ih _ (minimaxStep_bts_ne s u h)

theorem minimaxStep_best_cases (s : LoopState T U) (u : U) :
    (minimaxStep isMax applyT undoT recurse s u).best = s.best ∨
    (minimaxStep isMax applyT undoT recurse s u).best =
      (recurse (applyT s.board u) s.alpha s.beta s.ctr).value := by
  rw [minimaxStep]
  split
  · exact Or.inl rfl
  · simp only []
    split
    · exact Or.inl rfl
    · split
      · exact Or.inr rfl
      · exact Or.inl rfl

theorem foldl_step_best_ge
    (hrec : ∀ b a' b' k, NEG_INF ≤ (recurse b a' b' k).value) :
    ∀ (l : List U) (s : LoopState T U),
      NEG_INF ≤ s.best →
      NEG_INF ≤ (l.foldl (minimaxStep isMax applyT undoT recurse) s).best := by
  intro l
  induction l with
  | nil => intro s h1; exact h1
  | cons u rest ih =>
    intro s h1
    rw [List.foldl_cons]
    rcases @minimaxStep_best_cases T U isMax applyT undoT recurse s u with hc | hc
    · exact ih _ (hc ▸ h1)
    · have := hrec (applyT s.board u) s.alpha s.beta s.ctr
      exact ih _ (by omega)

theorem foldl_step_best_le
    (hrec : ∀ b a' b' k, (recurse b a' b' k).value ≤ POS_INF) :
    ∀ (l : List U) (s : LoopState T U),
      s.best ≤ POS_INF →
      (l.foldl (minimaxStep isMax applyT undoT recurse) s).best ≤ POS_INF := by
  intro l
  induction l with
  | nil => intro s h1; exact h1
  | cons u rest ih =>
    intro s h1
    rw [List.foldl_cons]
    rcases @minimaxStep_best_cases T U isMax applyT undoT recurse s u with hc | hc
    · exact ih _ (hc ▸ h1)
    · have := hrec (applyT s.board u) s.alpha s.beta s.ctr
      exact ih _ (by omega)

end LoopInvariants

/-! ### Board restoration and value range of the engine -/

theorem minimaxInitBest_ge (m : Bool) : NEG_INF ≤ minimaxInitBest m := by
  cases m <;> decide

theorem minimaxInitBest_le (m : Bool) : minimaxInitBest m ≤ POS_INF := by
  cases m <;> decide

/-- Under an exact apply/undo inverse, every call of the engine leaves the
board exactly as it found it. -/
theorem runMinimaxAlgorithm_board {T U : Type} (cb : Callbacks T U) (rng : Nat → Nat)
    (hundo : ∀ b u, cb.undoTransition (cb.applyTransition b u) u = b) :
    ∀ (fuel : Nat) (b : T) (m : Bool) (alpha beta : Int) (k : Nat),
      (runMinimaxAlgorithm cb rng fuel b m alpha beta k).board = b := by
  intro fuel
  induction fuel with
  | zero => intro b m alpha beta k; rfl
  | succ n ih =>
    intro b m alpha beta k
    rw [runMinimaxAlgorithm]
    split
    · rfl
    · split
      · rfl
      · split
        · rfl
        · simp only []
          split <;>
            exact foldl_step_board (fun b' a' b'' k' => ih _ _ _ _ _) hundo _ _

/-- Every value the engine can return is at least `NEG_INF`, provided every
heuristic value is. -/
theorem runMinimaxAlgorithm_value_ge {T U : Type} (cb : Callbacks T U) (rng : Nat → Nat)
    (hlo : ∀ b, NEG_INF ≤ cb.calculateBoard b) :
    ∀ (fuel : Nat) (b : T) (m : Bool) (alpha beta : Int) (k : Nat),
      NEG_INF ≤ (runMinimaxAlgorithm cb rng fuel b m alpha beta k).value := by
  intro fuel
  induction fuel with
  | zero => intro b m alpha beta k; exact hlo b
  | succ n ih =>
    intro b m alpha beta k
    rw [runMinimaxAlgorithm]
    split
    · show NEG_INF ≤ LOSS_SCORE; rw [LOSS_SCORE]; omega
    · split
      · show NEG_INF ≤ WIN_SCORE
        rw [WIN_SCORE, POS_INF, NEG_INF]; omega
      · split
        · show NEG_INF ≤ (0 : Int); rw [NEG_INF]; omega
        · simp only []
          split <;>
            exact foldl_step_best_ge (fun b' a' b'' k' => ih _ _ _ _ _) _ _
              (minimaxInitBest_ge _)

/-- Every value the engine can return is at most `POS_INF`, provided every
heuristic value is. -/
theorem runMinimaxAlgorithm_value_le {T U : Type} (cb : Callbacks T U) (rng : Nat → Nat)
    (hhi : ∀ b, cb.calculateBoard b ≤ POS_INF) :
    ∀ (fuel : Nat) (b : T) (m : Bool) (alpha beta : Int) (k : Nat),
      (runMinimaxAlgorithm cb rng fuel b m alpha beta k).value ≤ POS_INF := by
  intro fuel
  induction fuel with
  | zero => intro b m alpha beta k; exact hhi b
  | succ n ih =>
    intro b m alpha beta k
    rw [runMinimaxAlgorithm]
    split
    · show LOSS_SCORE ≤ POS_INF; rw [LOSS_SCORE, NEG_INF, POS_INF]; omega
    · split
      · show WIN_SCORE ≤ POS_INF; rw [WIN_SCORE]; omega
      · split
        · show (0 : Int) ≤ POS_INF; rw [POS_INF]; omega
        · simp only []
          split <;>
            exact foldl_step_best_le (fun b' a' b'' k' => ih _ _ _ _ _) _ _
              (minimaxInitBest_le _)

/-! ### Range of the exhaustive minimax value -/

theorem minimaxValue_ge {T U : Type} (cb : Callbacks T U)
    (hlo : ∀ b, NEG_INF ≤ cb.calculateBoard b) :
    ∀ (fuel : Nat) (b : T) (m : Bool), NEG_INF ≤ minimaxValue cb fuel b m := by
  intro fuel
  induction fuel with
  | zero => intro b m; exact hlo b
  | succ n ih =>
    intro b m
    rw [minimaxValue]
    split
    · rw [LOSS_SCORE]; omega
    · split
      · rw [WIN_SCORE, POS_INF, NEG_INF]; omega
      · split
        · rw [NEG_INF]; omega
        · split
          · exact le_trans (ih _ _) (le_foldl_max _ _)
          · refine le_foldl_min_of_forall _ _ _ (ih _ _) (fun x hx => ?_)
            obtain ⟨t, _, rfl⟩ := List.mem_map.mp hx
            exact ih _ _

theorem minimaxValue_le {T U : Type} (cb : Callbacks T U)
    (hhi : ∀ b, cb.calculateBoard b ≤ POS_INF) :
    ∀ (fuel : Nat) (b : T) (m : Bool), minimaxValue cb fuel b m ≤ POS_INF := by
  intro fuel
  induction fuel with
  | zero => intro b m; exact hhi b
  | succ n ih =>
    intro b m
    rw [minimaxValue]
    split
    · rw [LOSS_SCORE, NEG_INF, POS_INF]; omega
    · split
      · rw [WIN_SCORE]; omega
      · split
        · rw [POS_INF]; omega
        · split
          · refine foldl_max_le_of_forall _ _ _ (ih _ _) (fun x hx => ?_)
            obtain ⟨t, _, rfl⟩ := List.mem_map.mp hx
            exact ih _ _
          · exact le_trans (foldl_min_le _ _) (ih _ _)

/-! ### Characterization of a non-terminal engine call -/

/-- In the recursive case (no terminal applies), the engine call is the fold
of `minimaxStep` over the generated transitions followed by the result
selection. -/
theorem runMinimaxAlgorithm_succ_eq {T U : Type} (cb : Callbacks T U) (rng : Nat → Nat)
    (fuel : Nat) (b : T) (m : Bool) (alpha beta : Int) (k : Nat)
    (he1 : ¬ cb.calculateEndState b < 0) (he2 : ¬ cb.calculateEndState b > 0)
    (hne : cb.calculateTransitions b m ≠ []) :
    runMinimaxAlgorithm cb rng (fuel + 1) b m alpha beta k =
      (fun s : LoopState T U =>
        if s.bts.isEmpty then (⟨none, s.best, s.board, s.ctr⟩ : MMResult T U)
        else ⟨s.bts.get? (rng s.ctr % s.bts.length), s.best, s.board, s.ctr + 1⟩)
      ((cb.calculateTransitions b m).foldl
        (minimaxStep m cb.applyTransition cb.undoTransition
          (fun b' a' b'' k' => runMinimaxAlgorithm cb rng fuel b' (!m) a' b'' k'))
        ⟨b, minimaxInitBest m, [], alpha, beta, k⟩) := by
  rw [runMinimaxAlgorithm]
  rw [if_neg he1, if_neg he2, if_neg (by simp [List.isEmpty_iff, hne])]

/-! ### Claim theorems: terminal behaviour -/

/-- C4: for any callbacks and any board, a search with `maxDepth = 0` returns
no transition, the engine value `calculateBoard board`, an unchanged board
and an untouched random counter, and the driver returns `none`. -/
theorem depth_zero_identity {T U : Type} (cb : Callbacks T U) (rng : Nat → Nat) (b : T) :
    runMinimaxAlgorithm cb rng 0 b true NEG_INF POS_INF 0 =
      ⟨none, cb.calculateBoard b, b, 0⟩ ∧
    Minimax cb rng b 0 = none :=
  ⟨rfl, rfl⟩

/-- C3: at every non-depth-limit node (any `fuel + 1`, any role, any bounds),
a negative end state returns `(none, LOSS_SCORE)` and a positive one
`(none, WIN_SCORE)`, regardless of the available transitions; the scores are
`-9e9 + 1` and `9e9 - 1`, one unit inside the `±9e9` sentinels, so every
value strictly between them — in particular every in-range heuristic — lies
strictly between `LOSS_SCORE` and `WIN_SCORE`. -/
theorem end_state_terminal_scores {T U : Type} (cb : Callbacks T U) (rng : Nat → Nat)
    (fuel : Nat) (b : T) (m : Bool) (alpha beta : Int) (k : Nat) :
    (cb.calculateEndState b < 0 →
      runMinimaxAlgorithm cb rng (fuel + 1) b m alpha beta k = ⟨none, LOSS_SCORE, b, k⟩) ∧
    (cb.calculateEndState b > 0 →
      runMinimaxAlgorithm cb rng (fuel + 1) b m alpha beta k = ⟨none, WIN_SCORE, b, k⟩) ∧
    LOSS_SCORE = NEG_INF + 1 ∧ WIN_SCORE = POS_INF - 1 ∧
    (∀ v : Int, NEG_INF + 1 < v → v < POS_INF - 1 → LOSS_SCORE < v ∧ v < WIN_SCORE) := by
  refine ⟨fun h => ?_, fun h => ?_, rfl, rfl, fun v h1 h2 => ?_⟩
  · rw [runMinimaxAlgorithm, if_pos h]
  · rw [runMinimaxAlgorithm, if_neg (by omega), if_pos h]
  · rw [LOSS_SCORE, WIN_SCORE]; omega

/-- Witness for C3 on a concrete lost (and, respectively, won) position with
a legal move available. -/
theorem end_state_terminal_scores_witness :
    runMinimaxAlgorithm cbLost rngZero 1 [] true NEG_INF POS_INF 0 =
      ⟨none, LOSS_SCORE, [], 0⟩ ∧
    runMinimaxAlgorithm cbWon rngZero 1 [] true NEG_INF POS_INF 0 =
      ⟨none, WIN_SCORE, [], 0⟩ :=
  ⟨(end_state_terminal_scores cbLost rngZero 0 [] true NEG_INF POS_INF 0).1 (by decide),
   (end_state_terminal_scores cbWon rngZero 0 [] true NEG_INF POS_INF 0).2.1 (by decide)⟩

/-- C6: at every non-depth-limit node with a neutral end state and no
generated transitions, the engine returns `(none, 0)` with the board and the
random counter untouched. -/
theorem no_moves_draw {T U : Type} (cb : Callbacks T U) (rng : Nat → Nat)
    (fuel : Nat) (b : T) (m : Bool) (alpha beta : Int) (k : Nat)
    (he : cb.calculateEndState b = 0) (hts : cb.calculateTransitions b m = []) :
    runMinimaxAlgorithm cb rng (fuel + 1) b m alpha beta k = ⟨none, 0, b, k⟩ := by
  rw [runMinimaxAlgorithm, if_neg (by omega), if_neg (by omega),
    if_pos (by simp [hts])]

/-- Witness for C6 on a concrete stalemate position. -/
theorem no_moves_draw_witness :
    runMinimaxAlgorithm cbStale rngZero 3 [] true NEG_INF POS_INF 0 = ⟨none, 0, [], 0⟩ :=
  no_moves_draw cbStale rngZero 2 [] true NEG_INF POS_INF 0 (by decide) (by decide)

/-- C2: assuming every `undoTransition` exactly inverts the matching
`applyTransition`, the board that comes out of the root search call is the
board that went in (shown for every call of the engine, in particular the
root call made by `Minimax`). -/
theorem board_restored_after_search {T U : Type} (cb : Callbacks T U) (rng : Nat → Nat)
    (maxDepth : Nat) (b : T)
    (hundo : ∀ b' u, cb.undoTransition (cb.applyTransition b' u) u = b') :
    (runMinimaxAlgorithm cb rng maxDepth b true NEG_INF POS_INF 0).board = b :=
  runMinimaxAlgorithm_board cb rng hundo maxDepth b true NEG_INF POS_INF 0

/-- Witness for C2 on a concrete two-level game with pruning opportunities. -/
theorem board_restored_after_search_witness :
    (runMinimaxAlgorithm cbTri rngZero 2 [] true NEG_INF POS_INF 0).board = [] :=
  board_restored_after_search cbTri rngZero 2 [] (fun _ _ => rfl)

/-- C8: the driver returns a transition only when the root has a legal move:
with an empty root transition list, or `maxDepth = 0`, or a nonzero root end
state, `Minimax` returns `none`. -/
theorem no_legal_move_no_transition {T U : Type} (cb : Callbacks T U) (rng : Nat → Nat)
    (b : T) (maxDepth : Nat)
    (h : cb.calculateTransitions b true = [] ∨ maxDepth = 0 ∨ cb.calculateEndState b ≠ 0) :
    Minimax cb rng b maxDepth = none := by
  match maxDepth with
  | 0 => rfl
  | n + 1 =>
    rcases h with h | h | h
    · rw [Minimax, runMinimaxAlgorithm]
      split
      · rfl
      · split
        · rfl
        · rw [if_pos (by simp [h])]
    · exact absurd h (Nat.succ_ne_zero n)
    · rcases lt_or_gt_of_ne h with h' | h'
      · rw [Minimax, runMinimaxAlgorithm, if_pos h']
      · rw [Minimax, runMinimaxAlgorithm, if_neg (by omega), if_pos h']

/-- Witness for C8 on a lost root position that still has a legal move. -/
theorem no_legal_move_no_transition_witness :
    Minimax cbLost rngZero [] 2 = none :=
  no_legal_move_no_transition cbLost rngZero [] 2 (Or.inr (Or.inr (by decide)))

/-! ### Membership of the chosen transition -/

/-- Any transition returned by a non-leaf engine call is one of the
transitions generated at that node. -/
theorem runMinimaxAlgorithm_transition_mem {T U : Type} (cb : Callbacks T U) (rng : Nat → Nat)
    (fuel : Nat) (b : T) (m : Bool) (alpha beta : Int) (k : Nat) (t : U)
    (h : (runMinimaxAlgorithm cb rng (fuel + 1) b m alpha beta k).transition = some t) :
    t ∈ cb.calculateTransitions b m := by
  by_cases he1 : cb.calculateEndState b < 0
  · rw [runMinimaxAlgorithm, if_pos he1] at h
    exact absurd h (by simp)
  · by_cases he2 : cb.calculateEndState b > 0
    · rw [runMinimaxAlgorithm, if_neg he1, if_pos he2] at h
      exact absurd h (by simp)
    · by_cases hts : cb.calculateTransitions b m = []
      · rw [runMinimaxAlgorithm, if_neg he1, if_neg he2, if_pos (by simp [hts])] at h
        exact absurd h (by simp)
      · rw [runMinimaxAlgorithm_succ_eq cb rng fuel b m alpha beta k he1 he2 hts] at h
        simp only [] at h
        split at h
        · exact absurd h (by simp)
        · rcases foldl_step_bts_sub _ _ (List.get?_mem h) with hmem | hmem
          · exact absurd hmem (by simp)
          · exact hmem

/-- C5: per-child update discipline at an interior node, and choice
membership.  A strictly better child value (larger for the maximizer,
smaller for the minimizer) replaces `best`, resets the best-transition set
to that single transition and tightens `alpha` (respectively `beta`) to the
new best; a child value exactly equal to `best` is appended to the set
without touching `best`, `alpha` or `beta`; and any transition the engine
returns is a member of the transition list enumerated at that node. -/
theorem best_set_update_and_choice {T U : Type} (cb : Callbacks T U) (rng : Nat → Nat) :
    (∀ (isMax : Bool) (recurse : T → Int → Int → Nat → MMResult T U)
        (s : LoopState T U) (u : U),
      ¬ s.alpha > s.beta →
      (recurse (cb.applyTransition s.board u) s.alpha s.beta s.ctr).value = s.best →
      (minimaxStep isMax cb.applyTransition cb.undoTransition recurse s u).bts = s.bts ++ [u] ∧
      (minimaxStep isMax cb.applyTransition cb.undoTransition recurse s u).best = s.best ∧
      (minimaxStep isMax cb.applyTransition cb.undoTransition recurse s u).alpha = s.alpha ∧
      (minimaxStep isMax cb.applyTransition cb.undoTransition recurse s u).beta = s.beta) ∧
    (∀ (recurse : T → Int → Int → Nat → MMResult T U) (s : LoopState T U) (u : U),
      ¬ s.alpha > s.beta →
      (recurse (cb.applyTransition s.board u) s.alpha s.beta s.ctr).value > s.best →
      (minimaxStep true cb.applyTransition cb.undoTransition recurse s u).best =
        (recurse (cb.applyTransition s.board u) s.alpha s.beta s.ctr).value ∧
      (minimaxStep true cb.applyTransition cb.undoTransition recurse s u).bts = [u] ∧
      (minimaxStep true cb.applyTransition cb.undoTransition recurse s u).alpha =
        max s.alpha (recurse (cb.applyTransition s.board u) s.alpha s.beta s.ctr).value ∧
      (minimaxStep true cb.applyTransition cb.undoTransition recurse s u).beta = s.beta) ∧
    (∀ (recurse : T → Int → Int → Nat → MMResult T U) (s : LoopState T U) (u : U),
      ¬ s.alpha > s.beta →
      (recurse (cb.applyTransition s.board u) s.alpha s.beta s.ctr).value < s.best →
      (minimaxStep false cb.applyTransition cb.undoTransition recurse s u).best =
        (recurse (cb.applyTransition s.board u) s.alpha s.beta s.ctr).value ∧
      (minimaxStep false cb.applyTransition cb.undoTransition recurse s u).bts = [u] ∧
      (minimaxStep false cb.applyTransition cb.undoTransition recurse s u).beta =
        min s.beta (recurse (cb.applyTransition s.board u) s.alpha s.beta s.ctr).value ∧
      (minimaxStep false cb.applyTransition cb.undoTransition recurse s u).alpha = s.alpha) ∧
    (∀ (fuel : Nat) (b : T) (m : Bool) (alpha beta : Int) (k : Nat) (t : U),
      (runMinimaxAlgorithm cb rng (fuel + 1) b m alpha beta k).transition = some t →
      t ∈ cb.calculateTransitions b m) := by
  refine ⟨fun isMax recurse s u hp hv => ?_, fun recurse s u hp hv => ?_,
    fun recurse s u hp hv => ?_, fun fuel b m alpha beta k t h =>
      runMinimaxAlgorithm_transition_mem cb rng fuel b m alpha beta k t h⟩
  · rw [minimaxStep_eq_best isMax cb.applyTransition cb.undoTransition recurse hp hv]
    exact ⟨rfl, rfl, rfl, rfl⟩
  · rw [minimaxStep_max_gt cb.applyTransition cb.undoTransition recurse hp hv]
    exact ⟨rfl, rfl, rfl, rfl⟩
  · rw [minimaxStep_min_lt cb.applyTransition cb.undoTransition recurse hp hv]
    exact ⟨rfl, rfl, rfl, rfl⟩

/-- Witness for C5: on the concrete `{5, 9, 9}` tree the engine's chosen
transition is one of the enumerated root moves. -/
theorem best_set_update_and_choice_witness :
    (1 : Nat) ∈ cbTri.calculateTransitions [] true :=
  (best_set_update_and_choice cbTri rngZero).2.2.2 0 [] true NEG_INF POS_INF 0 1 (by decide)

/-- Counterexample to C9 as stated: in `cbLow` the root has `maxDepth = 1`,
a neutral end state and one legal move, yet `Minimax` returns `none`,
because the child heuristic `-10^10` lies below the maximizer's initial
`best = -9e9` and is discarded, leaving the best-transition set empty. -/
theorem root_move_dropped_cx :
    Minimax cbLow rngZero [] 1 = none ∧
    cbLow.calculateTransitions [] true ≠ [] ∧
    cbLow.calculateEndState [] = 0 ∧
    (runMinimaxAlgorithm cbLow rngZero 1 [] true NEG_INF POS_INF 0).value = NEG_INF := by
  refine ⟨by decide, by decide, by decide, by decide⟩

/-- C9 (amended): if additionally every heuristic value is at least the
`-9e9` sentinel (the spec's own heuristic-range contract), then whenever
`maxDepth ≥ 1`, the root end state is neutral and the root transition list
is non-empty, `Minimax` returns a transition, and it is one of the root's
generated transitions. -/
theorem root_returns_legal_move {T U : Type} (cb : Callbacks T U) (rng : Nat → Nat)
    (b : T) (maxDepth : Nat)
    (hd : 1 ≤ maxDepth) (he : cb.calculateEndState b = 0)
    (hne : cb.calculateTransitions b true ≠ [])
    (hlo : ∀ b', NEG_INF ≤ cb.calculateBoard b') :
    ∃ t, Minimax cb rng b maxDepth = some t ∧ t ∈ cb.calculateTransitions b true := by
  obtain ⟨n, rfl⟩ : ∃ n, maxDepth = n + 1 := ⟨maxDepth - 1, by omega⟩
  rw [Minimax,
    runMinimaxAlgorithm_succ_eq cb rng n b true NEG_INF POS_INF 0 (by omega) (by omega) hne]
  simp only []
  obtain ⟨u, us, hts⟩ := List.exists_cons_of_ne_nil hne
  have hF : ((cb.calculateTransitions b true).foldl
      (minimaxStep true cb.applyTransition cb.undoTransition
        (fun b' a' b'' k' => runMinimaxAlgorithm cb rng n b' (!true) a' b'' k'))
      ⟨b, minimaxInitBest true, [], NEG_INF, POS_INF, 0⟩).bts ≠ [] := by
    rw [hts, List.foldl_cons]
    refine foldl_step_bts_ne us _ ?_
    have hp : ¬ (⟨b, minimaxInitBest true, [], NEG_INF, POS_INF, 0⟩ :
        LoopState T U).alpha > (⟨b, minimaxInitBest true, [], NEG_INF, POS_INF, 0⟩ :
        LoopState T U).beta := (by decide : ¬ NEG_INF > POS_INF)
    have hv : NEG_INF ≤ (runMinimaxAlgorithm cb rng n (cb.applyTransition b u) (!true)
        NEG_INF POS_INF 0).value :=
      runMinimaxAlgorithm_value_ge cb rng hlo n _ _ _ _ _
    rcases eq_or_lt_of_le hv with heq | hlt
    · rw [minimaxStep_eq_best true cb.applyTransition cb.undoTransition
        (fun b' a' b'' k' => runMinimaxAlgorithm cb rng n b' (!true) a' b'' k') hp
        (by exact heq.symm)]
      simp
    · rw [minimaxStep_max_gt cb.applyTransition cb.undoTransition
        (fun b' a' b'' k' => runMinimaxAlgorithm cb rng n b' (!true) a' b'' k') hp
        (by exact hlt)]
      simp
  rw [if_neg (by simpa [List.isEmpty_iff] using hF)]
  have hlen : 0 < ((cb.calculateTransitions b true).foldl
      (minimaxStep true cb.applyTransition cb.undoTransition
        (fun b' a' b'' k' => runMinimaxAlgorithm cb rng n b' (!true) a' b'' k'))
      ⟨b, minimaxInitBest true, [], NEG_INF, POS_INF, 0⟩).bts.length :=
    List.length_pos.mpr hF
  obtain ⟨tt, htt⟩ : ∃ a, ((cb.calculateTransitions b true).foldl
      (minimaxStep true cb.applyTransition cb.undoTransition
        (fun b' a' b'' k' => runMinimaxAlgorithm cb rng n b' (!true) a' b'' k'))
      ⟨b, minimaxInitBest true, [], NEG_INF, POS_INF, 0⟩).bts.get?
        (rng ((cb.calculateTransitions b true).foldl
          (minimaxStep true cb.applyTransition cb.undoTransition
            (fun b' a' b'' k' => runMinimaxAlgorithm cb rng n b' (!true) a' b'' k'))
          ⟨b, minimaxInitBest true, [], NEG_INF, POS_INF, 0⟩).ctr %
         ((cb.calculateTransitions b true).foldl
          (minimaxStep true cb.applyTransition cb.undoTransition
            (fun b' a' b'' k' => runMinimaxAlgorithm cb rng n b' (!true) a' b'' k'))
          ⟨b, minimaxInitBest true, [], NEG_INF, POS_INF, 0⟩).bts.length) = some a := by
    rw [List.get?_eq_get (Nat.mod_lt _ hlen)]
    exact ⟨_, rfl⟩
  refine ⟨tt, htt, ?_⟩
  rcases foldl_step_bts_sub _ _ (List.get?_mem htt) with hmem | hmem
  · exact absurd hmem (by simp)
  · exact hmem

/-- Witness for C9 (amended) on the concrete `{5, 9, 9}` tree. -/
theorem root_returns_legal_move_witness :
    ∃ t, Minimax cbTri rngZero [] 1 = some t ∧ t ∈ cbTri.calculateTransitions [] true :=
  root_returns_legal_move cbTri rngZero [] 1 (by decide) (by decide) (by decide)
    (fun b' => by by_cases h : b' = [0] <;> simp [cbTri, h, NEG_INF])

/-! ### Independence of the returned value from the random oracle -/

theorem minimaxStep_ext {T U : Type} {isMax : Bool} {applyT undoT : T → U → T}
    {rec1 rec2 : T → Int → Int → Nat → MMResult T U}
    (h : ∀ b a' b' k, (rec1 b a' b' k).value = (rec2 b a' b' k).value ∧
      (rec1 b a' b' k).board = (rec2 b a' b' k).board ∧
      (rec1 b a' b' k).ctr = (rec2 b a' b' k).ctr)
    (s : LoopState T U) (u : U) :
    minimaxStep isMax applyT undoT rec1 s u = minimaxStep isMax applyT undoT rec2 s u := by
  obtain ⟨hv, hb, hk⟩ := h (applyT s.board u) s.alpha s.beta s.ctr
  rw [minimaxStep, minimaxStep]
  simp only [hv, hb, hk]

theorem foldl_step_ext {T U : Type} {isMax : Bool} {applyT undoT : T → U → T}
    {rec1 rec2 : T → Int → Int → Nat → MMResult T U}
    (h : ∀ b a' b' k, (rec1 b a' b' k).value = (rec2 b a' b' k).value ∧
      (rec1 b a' b' k).board = (rec2 b a' b' k).board ∧
      (rec1 b a' b' k).ctr = (rec2 b a' b' k).ctr) :
    ∀ (l : List U) (s : LoopState T U),
      l.foldl (minimaxStep isMax applyT undoT rec1) s =
      l.foldl (minimaxStep isMax applyT undoT rec2) s := by
  intro l
  induction l with
  | nil => intro s; rfl
  | cons u rest ih =>
    intro s
    rw [List.foldl_cons, List.foldl_cons, minimaxStep_ext h, ih]

/-- Two engine runs that differ only in the random oracle agree on the value,
the final board, the draw counter, and on whether a transition is returned. -/
theorem runMinimaxAlgorithm_rng_agree {T U : Type} (cb : Callbacks T U) (r1 r2 : Nat → Nat) :
    ∀ (fuel : Nat) (b : T) (m : Bool) (alpha beta : Int) (k : Nat),
      ((runMinimaxAlgorithm cb r1 fuel b m alpha beta k).value =
        (runMinimaxAlgorithm cb r2 fuel b m alpha beta k).value ∧
       (runMinimaxAlgorithm cb r1 fuel b m alpha beta k).board =
        (runMinimaxAlgorithm cb r2 fuel b m alpha beta k).board ∧
       (runMinimaxAlgorithm cb r1 fuel b m alpha beta k).ctr =
        (runMinimaxAlgorithm cb r2 fuel b m alpha beta k).ctr) ∧
      (runMinimaxAlgorithm cb r1 fuel b m alpha beta k).transition.isSome =
        (runMinimaxAlgorithm cb r2 fuel b m alpha beta k).transition.isSome := by
  intro fuel
  induction fuel with
  | zero => intro b m alpha beta k; exact ⟨⟨rfl, rfl, rfl⟩, rfl⟩
  | succ n ih =>
    intro b m alpha beta k
    by_cases he1 : cb.calculateEndState b < 0
    · rw [runMinimaxAlgorithm, runMinimaxAlgorithm, if_pos he1, if_pos he1]
      exact ⟨⟨rfl, rfl, rfl⟩, rfl⟩
    · by_cases he2 : cb.calculateEndState b > 0
      · rw [runMinimaxAlgorithm, runMinimaxAlgorithm, if_neg he1, if_neg he1,
          if_pos he2, if_pos he2]
        exact ⟨⟨rfl, rfl, rfl⟩, rfl⟩
      · by_cases hts : cb.calculateTransitions b m = []
        · rw [runMinimaxAlgorithm, runMinimaxAlgorithm, if_neg he1, if_neg he1,
            if_neg he2, if_neg he2, if_pos (by simp [hts]), if_pos (by simp [hts])]
          exact ⟨⟨rfl, rfl, rfl⟩, rfl⟩
        · rw [runMinimaxAlgorithm_succ_eq cb r1 n b m alpha beta k he1 he2 hts,
            runMinimaxAlgorithm_succ_eq cb r2 n b m alpha beta k he1 he2 hts]
          simp only []
          rw [foldl_step_ext (fun b' a' b'' k' => (ih b' (!m) a' b'' k').1)]
          by_cases hbe : ((cb.calculateTransitions b m).foldl
              (minimaxStep m cb.applyTransition cb.undoTransition
                (fun b' a' b'' k' => runMinimaxAlgorithm cb r2 n b' (!m) a' b'' k'))
              ⟨b, minimaxInitBest m, [], alpha, beta, k⟩).bts.isEmpty
          · rw [if_pos hbe, if_pos hbe]
            exact ⟨⟨rfl, rfl, rfl⟩, rfl⟩
          · rw [if_neg hbe, if_neg hbe]
            refine ⟨⟨rfl, rfl, rfl⟩, ?_⟩
            have hlen : 0 < ((cb.calculateTransitions b m).foldl
                (minimaxStep m cb.applyTransition cb.undoTransition
                  (fun b' a' b'' k' => runMinimaxAlgorithm cb r2 n b' (!m) a' b'' k'))
                ⟨b, minimaxInitBest m, [], alpha, beta, k⟩).bts.length := by
              refine List.length_pos.mpr (fun hnil => hbe ?_)
              rw [hnil]; rfl
            show (List.get? _ _).isSome = (List.get? _ _).isSome
            rw [List.get?_eq_get (Nat.mod_lt _ hlen), List.get?_eq_get (Nat.mod_lt _ hlen)]
            rfl

/-- C10: two executions of the search on identical inputs differing only in
the random tie-break oracle return the same root value, and one returns a
transition exactly when the other does; only the identity of the chosen tied
transition can differ. -/
theorem value_independent_of_rng {T U : Type} (cb : Callbacks T U)
    (b : T) (maxDepth : Nat) (r1 r2 : Nat → Nat) :
    (runMinimaxAlgorithm cb r1 maxDepth b true NEG_INF POS_INF 0).value =
      (runMinimaxAlgorithm cb r2 maxDepth b true NEG_INF POS_INF 0).value ∧
    (Minimax cb r1 b maxDepth).isSome = (Minimax cb r2 b maxDepth).isSome :=
  ⟨(runMinimaxAlgorithm_rng_agree cb r1 r2 maxDepth b true NEG_INF POS_INF 0).1.1,
   (runMinimaxAlgorithm_rng_agree cb r1 r2 maxDepth b true NEG_INF POS_INF 0).2⟩

/-! ### Alpha-beta bound analysis of the loop (maximizer) -/

theorem loop_max_bounds {T U : Type} (cb : Callbacks T U) (rng : Nat → Nat) (fuel : Nat)
    (hundo : ∀ b' u, cb.undoTransition (cb.applyTransition b' u) u = b')
    (IHval : ∀ (b : T) (a' b' : Int) (k : Nat), a' ≤ b' → NEG_INF ≤ a' → b' ≤ POS_INF →
      (runMinimaxAlgorithm cb rng fuel b false a' b' k).value ≤
        max a' (minimaxValue cb fuel b false) ∧
      min b' (minimaxValue cb fuel b false) ≤
        (runMinimaxAlgorithm cb rng fuel b false a' b' k).value)
    (IHlo : ∀ (b : T) (m : Bool) (a' b' : Int) (k : Nat),
      NEG_INF ≤ (runMinimaxAlgorithm cb rng fuel b m a' b' k).value)
    (IHhi : ∀ (b : T) (m : Bool) (a' b' : Int) (k : Nat),
      (runMinimaxAlgorithm cb rng fuel b m a' b' k).value ≤ POS_INF) :
    ∀ (l : List U) (s : LoopState T U) (al : Int),
      s.alpha = max al s.best → NEG_INF ≤ al → al ≤ s.beta → s.beta ≤ POS_INF →
      NEG_INF ≤ s.best → s.best ≤ POS_INF →
      (l.foldl (minimaxStep true cb.applyTransition cb.undoTransition
        (fun b' a' b'' k' => runMinimaxAlgorithm cb rng fuel b' false a' b'' k')) s).best ≤
        (l.map (fun u => minimaxValue cb fuel (cb.applyTransition s.board u) false)).foldl
          max s.alpha ∧
      min s.beta
        ((l.map (fun u => minimaxValue cb fuel (cb.applyTransition s.board u) false)).foldl
          max s.best) ≤
        (l.foldl (minimaxStep true cb.applyTransition cb.undoTransition
          (fun b' a' b'' k' => runMinimaxAlgorithm cb rng fuel b' false a' b'' k')) s).best := by
  intro l
  induction l with
  | nil =>
    intro s al halpha _ _ _ _ _
    constructor
    · show s.best ≤ s.alpha
      rw [halpha]; omega
    · show min s.beta s.best ≤ s.best
      omega
  | cons u rest ih =>
    intro s al halpha hal hab hbp hblo hbhi
    by_cases hp : s.alpha > s.beta
    · rw [foldl_step_prune hp]
      constructor
      · exact le_trans (by rw [halpha]; omega) (le_foldl_max _ _)
      · have hgt : s.beta < s.best := by rw [halpha] at hp; omega
        have := min_le_left s.beta
          (((u :: rest).map
            (fun u' => minimaxValue cb fuel (cb.applyTransition s.board u') false)).foldl
            max s.best)
        omega
    · have hab' : s.alpha ≤ s.beta := le_of_not_lt hp
      have halo : NEG_INF ≤ s.alpha := by rw [halpha]; omega
      have hchild := IHval (cb.applyTransition s.board u) s.alpha s.beta s.ctr hab' halo hbp
      have hvlo := IHlo (cb.applyTransition s.board u) false s.alpha s.beta s.ctr
      have hvhi := IHhi (cb.applyTransition s.board u) false s.alpha s.beta s.ctr
      have hbd : cb.undoTransition (runMinimaxAlgorithm cb rng fuel
          (cb.applyTransition s.board u) false s.alpha s.beta s.ctr).board u = s.board := by
        rw [runMinimaxAlgorithm_board cb rng hundo, hundo]
      simp only [List.map_cons, List.foldl_cons]
      rcases lt_trichotomy
        ((runMinimaxAlgorithm cb rng fuel (cb.applyTransition s.board u) false
          s.alpha s.beta s.ctr).value) s.best with hlt | heqv | hgt
      · rw [minimaxStep_max_lt cb.applyTransition cb.undoTransition
          (fun b' a' b'' k' => runMinimaxAlgorithm cb rng fuel b' false a' b'' k') hp
          (by exact hlt), hbd]
        have hrec := ih { s with
            board := s.board,
            ctr := (runMinimaxAlgorithm cb rng fuel (cb.applyTransition s.board u) false
              s.alpha s.beta s.ctr).ctr } al halpha hal hab hbp hblo hbhi
        dsimp only at hrec
        constructor
        · exact le_trans hrec.1 (foldl_max_mono _ _ _ (le_max_left _ _))
        · by_cases htu : minimaxValue cb fuel (cb.applyTransition s.board u) false ≤ s.beta
          · have : minimaxValue cb fuel (cb.applyTransition s.board u) false < s.best := by
              have := hchild.2; omega
            rw [show max s.best (minimaxValue cb fuel (cb.applyTransition s.board u) false) =
              s.best by omega]
            exact hrec.2
          · have hflb := le_foldl_max
              ((rest.map (fun u' => minimaxValue cb fuel (cb.applyTransition s.board u') false)))
              s.best
            have := min_le_left s.beta
              ((rest.map (fun u' => minimaxValue cb fuel (cb.applyTransition s.board u') false)).foldl
                max (max s.best (minimaxValue cb fuel (cb.applyTransition s.board u) false)))
            have hBeq := hrec.2
            have hsb : s.beta < s.best := by have := hchild.2; omega
            have : min s.beta ((rest.map
                (fun u' => minimaxValue cb fuel (cb.applyTransition s.board u') false)).foldl
                max s.best) = s.beta := by omega
            omega
      · rw [minimaxStep_eq_best true cb.applyTransition cb.undoTransition
          (fun b' a' b'' k' => runMinimaxAlgorithm cb rng fuel b' false a' b'' k') hp
          (by exact heqv), hbd]
        have hrec := ih { s with
            board := s.board,
            bts := s.bts ++ [u],
            ctr := (runMinimaxAlgorithm cb rng fuel (cb.applyTransition s.board u) false
              s.alpha s.beta s.ctr).ctr } al halpha hal hab hbp hblo hbhi
        dsimp only at hrec
        constructor
        · exact le_trans hrec.1 (foldl_max_mono _ _ _ (le_max_left _ _))
        · by_cases htu : minimaxValue cb fuel (cb.applyTransition s.board u) false ≤ s.beta
          · have : minimaxValue cb fuel (cb.applyTransition s.board u) false ≤ s.best := by
              have := hchild.2; omega
            rw [show max s.best (minimaxValue cb fuel (cb.applyTransition s.board u) false) =
              s.best by omega]
            exact hrec.2
          · have hflb := le_foldl_max
              ((rest.map (fun u' => minimaxValue cb fuel (cb.applyTransition s.board u') false)))
              s.best
            have := min_le_left s.beta
              ((rest.map (fun u' => minimaxValue cb fuel (cb.applyTransition s.board u') false)).foldl
                max (max s.best (minimaxValue cb fuel (cb.applyTransition s.board u) false)))
            have hBeq := hrec.2
            have hsb : s.beta ≤ s.best := by have := hchild.2; omega
            have : min s.beta ((rest.map
                (fun u' => minimaxValue cb fuel (cb.applyTransition s.board u') false)).foldl
                max s.best) = s.beta := by omega
            omega
      · rw [minimaxStep_max_gt cb.applyTransition cb.undoTransition
          (fun b' a' b'' k' => runMinimaxAlgorithm cb rng fuel b' false a' b'' k') hp
          (by exact hgt), hbd]
        have halpha' : max s.alpha (runMinimaxAlgorithm cb rng fuel
            (cb.applyTransition s.board u) false s.alpha s.beta s.ctr).value =
            max al (runMinimaxAlgorithm cb rng fuel
            (cb.applyTransition s.board u) false s.alpha s.beta s.ctr).value := by
          rw [halpha] at hgt ⊢; omega
        have hrec := ih ⟨s.board,
            (runMinimaxAlgorithm cb rng fuel (cb.applyTransition s.board u) false
              s.alpha s.beta s.ctr).value, [u],
            max s.alpha (runMinimaxAlgorithm cb rng fuel (cb.applyTransition s.board u) false
              s.alpha s.beta s.ctr).value, s.beta,
            (runMinimaxAlgorithm cb rng fuel (cb.applyTransition s.board u) false
              s.alpha s.beta s.ctr).ctr⟩ al (by exact halpha') hal hab hbp
            (by exact hvlo) (by exact hvhi)
        dsimp only at hrec
        constructor
        · refine le_trans hrec.1 (foldl_max_mono _ _ _ ?_)
          have := hchild.1; omega
        · by_cases htu : minimaxValue cb fuel (cb.applyTransition s.board u) false ≤ s.beta
          · have htv : minimaxValue cb fuel (cb.applyTransition s.board u) false ≤
                (runMinimaxAlgorithm cb rng fuel (cb.applyTransition s.board u) false
                  s.alpha s.beta s.ctr).value := by
              have := hchild.2; omega
            have hmono := foldl_max_mono
              (rest.map (fun u' => minimaxValue cb fuel (cb.applyTransition s.board u') false))
              (max s.best (minimaxValue cb fuel (cb.applyTransition s.board u) false))
              ((runMinimaxAlgorithm cb rng fuel (cb.applyTransition s.board u) false
                s.alpha s.beta s.ctr).value)
              (by omega)
            have hB := hrec.2
            omega
          · have hflb := le_foldl_max
              ((rest.map (fun u' => minimaxValue cb fuel (cb.applyTransition s.board u') false)))
              ((runMinimaxAlgorithm cb rng fuel (cb.applyTransition s.board u) false
                s.alpha s.beta s.ctr).value)
            have := min_le_left s.beta
              ((rest.map (fun u' => minimaxValue cb fuel (cb.applyTransition s.board u') false)).foldl
                max (max s.best (minimaxValue cb fuel (cb.applyTransition s.board u) false)))
            have hBeq := hrec.2
            have hsb : s.beta ≤ (runMinimaxAlgorithm cb rng fuel (cb.applyTransition s.board u)
                false s.alpha s.beta s.ctr).value := by
              have := hchild.2; omega
            have : min s.beta ((rest.map
                (fun u' => minimaxValue cb fuel (cb.applyTransition s.board u') false)).foldl
                max ((runMinimaxAlgorithm cb rng fuel (cb.applyTransition s.board u) false
                  s.alpha s.beta s.ctr).value)) = s.beta := by omega
            omega

/-! ### Alpha-beta bound analysis of the loop (minimizer) -/

theorem loop_min_bounds {T U : Type} (cb : Callbacks T U) (rng : Nat → Nat) (fuel : Nat)
    (hundo : ∀ b' u, cb.undoTransition (cb.applyTransition b' u) u = b')
    (IHval : ∀ (b : T) (a' b' : Int) (k : Nat), a' ≤ b' → NEG_INF ≤ a' → b' ≤ POS_INF →
      (runMinimaxAlgorithm cb rng fuel b true a' b' k).value ≤
        max a' (minimaxValue cb fuel b true) ∧
      min b' (minimaxValue cb fuel b true) ≤
        (runMinimaxAlgorithm cb rng fuel b true a' b' k).value)
    (IHlo : ∀ (b : T) (m : Bool) (a' b' : Int) (k : Nat),
      NEG_INF ≤ (runMinimaxAlgorithm cb rng fuel b m a' b' k).value)
    (IHhi : ∀ (b : T) (m : Bool) (a' b' : Int) (k : Nat),
      (runMinimaxAlgorithm cb rng fuel b m a' b' k).value ≤ POS_INF) :
    ∀ (l : List U) (s : LoopState T U) (bl : Int),
      s.beta = min bl s.best → bl ≤ POS_INF → s.alpha ≤ bl → NEG_INF ≤ s.alpha →
      NEG_INF ≤ s.best → s.best ≤ POS_INF →
      (l.map (fun u => minimaxValue cb fuel (cb.applyTransition s.board u) true)).foldl
          min s.beta ≤
        (l.foldl (minimaxStep false cb.applyTransition cb.undoTransition
          (fun b' a' b'' k' => runMinimaxAlgorithm cb rng fuel b' true a' b'' k')) s).best ∧
      (l.foldl (minimaxStep false cb.applyTransition cb.undoTransition
        (fun b' a' b'' k' => runMinimaxAlgorithm cb rng fuel b' true a' b'' k')) s).best ≤
        max s.alpha
          ((l.map (fun u => minimaxValue cb fuel (cb.applyTransition s.board u) true)).foldl
            min s.best) := by
  intro l
  induction l with
  | nil =>
    intro s bl hbeta _ _ _ _ _
    constructor
    · show s.beta ≤ s.best
      rw [hbeta]; omega
    · show s.best ≤ max s.alpha s.best
      omega
  | cons u rest ih =>
    intro s bl hbeta hbl hab hal hblo hbhi
    by_cases hp : s.alpha > s.beta
    · rw [foldl_step_prune hp]
      constructor
      · have hsb : s.beta ≤ s.best := by rw [hbeta]; omega
        exact le_trans (foldl_min_le _ _) hsb
      · have hlt : s.best < s.alpha := by rw [hbeta] at hp; omega
        have := le_max_left s.alpha
          (((u :: rest).map
            (fun u' => minimaxValue cb fuel (cb.applyTransition s.board u') true)).foldl
            min s.best)
        omega
    · have hab' : s.alpha ≤ s.beta := le_of_not_lt hp
      have hbhip : s.beta ≤ POS_INF := by rw [hbeta]; omega
      have hchild := IHval (cb.applyTransition s.board u) s.alpha s.beta s.ctr hab' hal hbhip
      have hvlo := IHlo (cb.applyTransition s.board u) true s.alpha s.beta s.ctr
      have hvhi := IHhi (cb.applyTransition s.board u) true s.alpha s.beta s.ctr
      have hbd : cb.undoTransition (runMinimaxAlgorithm cb rng fuel
          (cb.applyTransition s.board u) true s.alpha s.beta s.ctr).board u = s.board := by
        rw [runMinimaxAlgorithm_board cb rng hundo, hundo]
      simp only [List.map_cons, List.foldl_cons]
      rcases lt_trichotomy
        ((runMinimaxAlgorithm cb rng fuel (cb.applyTransition s.board u) true
          s.alpha s.beta s.ctr).value) s.best with hlt | heqv | hgt
      · rw [minimaxStep_min_lt cb.applyTransition cb.undoTransition
          (fun b' a' b'' k' => runMinimaxAlgorithm cb rng fuel b' true a' b'' k') hp
          (by exact hlt), hbd]
        have hbeta' : min s.beta (runMinimaxAlgorithm cb rng fuel
            (cb.applyTransition s.board u) true s.alpha s.beta s.ctr).value =
            min bl (runMinimaxAlgorithm cb rng fuel
            (cb.applyTransition s.board u) true s.alpha s.beta s.ctr).value := by
          rw [hbeta] at hlt ⊢; omega
        have hrec := ih ⟨s.board,
            (runMinimaxAlgorithm cb rng fuel (cb.applyTransition s.board u) true
              s.alpha s.beta s.ctr).value, [u], s.alpha,
            min s.beta (runMinimaxAlgorithm cb rng fuel (cb.applyTransition s.board u) true
              s.alpha s.beta s.ctr).value,
            (runMinimaxAlgorithm cb rng fuel (cb.applyTransition s.board u) true
              s.alpha s.beta s.ctr).ctr⟩ bl (by exact hbeta') hbl hab hal
            (by exact hvlo) (by exact hvhi)
        dsimp only at hrec
        constructor
        · have hmin : min s.beta (minimaxValue cb fuel (cb.applyTransition s.board u) true) ≤
              min s.beta (runMinimaxAlgorithm cb rng fuel (cb.applyTransition s.board u) true
                s.alpha s.beta s.ctr).value := by
            have := hchild.2; omega
          have hmono := foldl_min_mono
            (rest.map (fun u' => minimaxValue cb fuel (cb.applyTransition s.board u') true))
            (min s.beta (minimaxValue cb fuel (cb.applyTransition s.board u) true))
            (min s.beta (runMinimaxAlgorithm cb rng fuel (cb.applyTransition s.board u) true
              s.alpha s.beta s.ctr).value) hmin
          have hA := hrec.1
          omega
        · by_cases htu : s.alpha ≤ minimaxValue cb fuel (cb.applyTransition s.board u) true
          · have htv : (runMinimaxAlgorithm cb rng fuel (cb.applyTransition s.board u) true
                s.alpha s.beta s.ctr).value ≤
                minimaxValue cb fuel (cb.applyTransition s.board u) true := by
              have := hchild.1; omega
            have hmono := foldl_min_mono
              (rest.map (fun u' => minimaxValue cb fuel (cb.applyTransition s.board u') true))
              ((runMinimaxAlgorithm cb rng fuel (cb.applyTransition s.board u) true
                s.alpha s.beta s.ctr).value)
              (min s.best (minimaxValue cb fuel (cb.applyTransition s.board u) true))
              (by omega)
            have hB := hrec.2
            omega
          · have hflb := foldl_min_le
              (rest.map (fun u' => minimaxValue cb fuel (cb.applyTransition s.board u') true))
              ((runMinimaxAlgorithm cb rng fuel (cb.applyTransition s.board u) true
                s.alpha s.beta s.ctr).value)
            have := le_max_left s.alpha
              ((rest.map (fun u' => minimaxValue cb fuel (cb.applyTransition s.board u') true)).foldl
                min (min s.best (minimaxValue cb fuel (cb.applyTransition s.board u) true)))
            have hB := hrec.2
            have hsv : (runMinimaxAlgorithm cb rng fuel (cb.applyTransition s.board u) true
                s.alpha s.beta s.ctr).value ≤ s.alpha := by
              have := hchild.1; omega
            have : max s.alpha ((rest.map
                (fun u' => minimaxValue cb fuel (cb.applyTransition s.board u') true)).foldl
                min ((runMinimaxAlgorithm cb rng fuel (cb.applyTransition s.board u) true
                  s.alpha s.beta s.ctr).value)) = s.alpha := by omega
            omega
      · rw [minimaxStep_eq_best false cb.applyTransition cb.undoTransition
          (fun b' a' b'' k' => runMinimaxAlgorithm cb rng fuel b' true a' b'' k') hp
          (by exact heqv), hbd]
        have hrec := ih { s with
            board := s.board,
            bts := s.bts ++ [u],
            ctr := (runMinimaxAlgorithm cb rng fuel (cb.applyTransition s.board u) true
              s.alpha s.beta s.ctr).ctr } bl hbeta hbl hab hal hblo hbhi
        dsimp only at hrec
        constructor
        · have hmin : min s.beta (minimaxValue cb fuel (cb.applyTransition s.board u) true) ≤
              s.beta := by omega
          have hmono := foldl_min_mono
            (rest.map (fun u' => minimaxValue cb fuel (cb.applyTransition s.board u') true))
            (min s.beta (minimaxValue cb fuel (cb.applyTransition s.board u) true))
            s.beta hmin
          have hA := hrec.1
          omega
        · by_cases htu : s.alpha ≤ minimaxValue cb fuel (cb.applyTransition s.board u) true
          · have : s.best ≤ minimaxValue cb fuel (cb.applyTransition s.board u) true := by
              have := hchild.1; omega
            rw [show min s.best (minimaxValue cb fuel (cb.applyTransition s.board u) true) =
              s.best by omega]
            exact hrec.2
          · have hflb := foldl_min_le
              (rest.map (fun u' => minimaxValue cb fuel (cb.applyTransition s.board u') true))
              s.best
            have := le_max_left s.alpha
              ((rest.map (fun u' => minimaxValue cb fuel (cb.applyTransition s.board u') true)).foldl
                min (min s.best (minimaxValue cb fuel (cb.applyTransition s.board u) true)))
            have hB := hrec.2
            have hsb : s.best ≤ s.alpha := by have := hchild.1; omega
            have : max s.alpha ((rest.map
                (fun u' => minimaxValue cb fuel (cb.applyTransition s.board u') true)).foldl
                min s.best) = s.alpha := by omega
            omega
      · rw [minimaxStep_min_gt cb.applyTransition cb.undoTransition
          (fun b' a' b'' k' => runMinimaxAlgorithm cb rng fuel b' true a' b'' k') hp
          (by exact hgt), hbd]
        have hrec := ih { s with
            board := s.board,
            ctr := (runMinimaxAlgorithm cb rng fuel (cb.applyTransition s.board u) true
              s.alpha s.beta s.ctr).ctr } bl hbeta hbl hab hal hblo hbhi
        dsimp only at hrec
        constructor
        · have hmin : min s.beta (minimaxValue cb fuel (cb.applyTransition s.board u) true) ≤
              s.beta := by omega
          have hmono := foldl_min_mono
            (rest.map (fun u' => minimaxValue cb fuel (cb.applyTransition s.board u') true))
            (min s.beta (minimaxValue cb fuel (cb.applyTransition s.board u) true))
            s.beta hmin
          have hA := hrec.1
          omega
        · by_cases htu : s.alpha ≤ minimaxValue cb fuel (cb.applyTransition s.board u) true
          · have : s.best < minimaxValue cb fuel (cb.applyTransition s.board u) true := by
              have := hchild.1; omega
            rw [show min s.best (minimaxValue cb fuel (cb.applyTransition s.board u) true) =
              s.best by omega]
            exact hrec.2
          · have hflb := foldl_min_le
              (rest.map (fun u' => minimaxValue cb fuel (cb.applyTransition s.board u') true))
              s.best
            have := le_max_left s.alpha
              ((rest.map (fun u' => minimaxValue cb fuel (cb.applyTransition s.board u') true)).foldl
                min (min s.best (minimaxValue cb fuel (cb.applyTransition s.board u) true)))
            have hB := hrec.2
            have hsb : s.best < s.alpha := by have := hchild.1; omega
            have : max s.alpha ((rest.map
                (fun u' => minimaxValue cb fuel (cb.applyTransition s.board u') true)).foldl
                min s.best) = s.alpha := by omega
            omega

/-- In the recursive case the engine's value is the final `best` of the loop. -/
theorem runMinimaxAlgorithm_succ_value {T U : Type} (cb : Callbacks T U) (rng : Nat → Nat)
    (fuel : Nat) (b : T) (m : Bool) (alpha beta : Int) (k : Nat)
    (he1 : ¬ cb.calculateEndState b < 0) (he2 : ¬ cb.calculateEndState b > 0)
    (hne : cb.calculateTransitions b m ≠ []) :
    (runMinimaxAlgorithm cb rng (fuel + 1) b m alpha beta k).value =
      ((cb.calculateTransitions b m).foldl
        (minimaxStep m cb.applyTransition cb.undoTransition
          (fun b' a' b'' k' => runMinimaxAlgorithm cb rng fuel b' (!m) a' b'' k'))
        ⟨b, minimaxInitBest m, [], alpha, beta, k⟩).best := by
  rw [runMinimaxAlgorithm_succ_eq cb rng fuel b m alpha beta k he1 he2 hne]
  dsimp only
  split <;> rfl

theorem minimaxValue_succ_max {T U : Type} (cb : Callbacks T U)
    (fuel : Nat) (b : T) (u : U) (us : List U)
    (he1 : ¬ cb.calculateEndState b < 0) (he2 : ¬ cb.calculateEndState b > 0)
    (hts : cb.calculateTransitions b true = u :: us) :
    minimaxValue cb (fuel + 1) b true =
      (us.map (fun t => minimaxValue cb fuel (cb.applyTransition b t) false)).foldl
        max (minimaxValue cb fuel (cb.applyTransition b u) false) := by
  rw [minimaxValue]
  rw [if_neg he1, if_neg he2, hts]
  rfl

theorem minimaxValue_succ_min {T U : Type} (cb : Callbacks T U)
    (fuel : Nat) (b : T) (u : U) (us : List U)
    (he1 : ¬ cb.calculateEndState b < 0) (he2 : ¬ cb.calculateEndState b > 0)
    (hts : cb.calculateTransitions b false = u :: us) :
    minimaxValue cb (fuel + 1) b false =
      (us.map (fun t => minimaxValue cb fuel (cb.applyTransition b t) true)).foldl
        min (minimaxValue cb fuel (cb.applyTransition b u) true) := by
  rw [minimaxValue]
  rw [if_neg he1, if_neg he2, hts]
  rfl

theorem minimaxValue_succ_nil {T U : Type} (cb : Callbacks T U)
    (fuel : Nat) (b : T) (m : Bool)
    (he1 : ¬ cb.calculateEndState b < 0) (he2 : ¬ cb.calculateEndState b > 0)
    (hts : cb.calculateTransitions b m = []) :
    minimaxValue cb (fuel + 1) b m = 0 := by
  rw [minimaxValue]
  rw [if_neg he1, if_neg he2, hts]

/-- Fail-soft alpha-beta bounds: within any window `alpha ≤ beta` inside the
sentinels, the engine's value is at most `max alpha` and at least `min beta`
of the exhaustive minimax value of the same node. -/
theorem run_ab_bounds {T U : Type} (cb : Callbacks T U) (rng : Nat → Nat)
    (hundo : ∀ b' u, cb.undoTransition (cb.applyTransition b' u) u = b')
    (hlo : ∀ b, NEG_INF ≤ cb.calculateBoard b)
    (hhi : ∀ b, cb.calculateBoard b ≤ POS_INF) :
    ∀ (fuel : Nat) (b : T) (m : Bool) (alpha beta : Int) (k : Nat),
      alpha ≤ beta → NEG_INF ≤ alpha → beta ≤ POS_INF →
      (runMinimaxAlgorithm cb rng fuel b m alpha beta k).value ≤
        max alpha (minimaxValue cb fuel b m) ∧
      min beta (minimaxValue cb fuel b m) ≤
        (runMinimaxAlgorithm cb rng fuel b m alpha beta k).value := by
  intro fuel
  induction fuel with
  | zero =>
    intro b m alpha beta k _ _ _
    constructor
    · show cb.calculateBoard b ≤ max alpha (cb.calculateBoard b)
      omega
    · show min beta (cb.calculateBoard b) ≤ cb.calculateBoard b
      omega
  | succ n ih =>
    intro b m alpha beta k hab halo hbhi
    by_cases he1 : cb.calculateEndState b < 0
    · have h1 : runMinimaxAlgorithm cb rng (n + 1) b m alpha beta k =
          ⟨none, LOSS_SCORE, b, k⟩ := by rw [runMinimaxAlgorithm, if_pos he1]
      have h2 : minimaxValue cb (n + 1) b m = LOSS_SCORE := by
        rw [minimaxValue, if_pos he1]
      rw [h1, h2]
      constructor <;> [skip; skip] <;> dsimp only <;> omega
    · by_cases he2 : cb.calculateEndState b > 0
      · have h1 : runMinimaxAlgorithm cb rng (n + 1) b m alpha beta k =
            ⟨none, WIN_SCORE, b, k⟩ := by
          rw [runMinimaxAlgorithm, if_neg he1, if_pos he2]
        have h2 : minimaxValue cb (n + 1) b m = WIN_SCORE := by
          rw [minimaxValue, if_neg he1, if_pos he2]
        rw [h1, h2]
        constructor <;> dsimp only <;> omega
      · by_cases hts : cb.calculateTransitions b m = []
        · have h1 : runMinimaxAlgorithm cb rng (n + 1) b m alpha beta k =
              ⟨none, 0, b, k⟩ := by
            rw [runMinimaxAlgorithm, if_neg he1, if_neg he2, if_pos (by simp [hts])]
          have h2 : minimaxValue cb (n + 1) b m = 0 :=
            minimaxValue_succ_nil cb n b m he1 he2 hts
          rw [h1, h2]
          constructor <;> dsimp only <;> omega
        · rw [runMinimaxAlgorithm_succ_value cb rng n b m alpha beta k he1 he2 hts]
          obtain ⟨u, us, hts'⟩ := List.exists_cons_of_ne_nil hts
          cases m with
          | true =>
            have hloop := loop_max_bounds cb rng n hundo
              (fun b' a' b'' k' ha hn hb => ih b' false a' b'' k' ha hn hb)
              (fun b' m' a' b'' k' => runMinimaxAlgorithm_value_ge cb rng hlo n b' m' a' b'' k')
              (fun b' m' a' b'' k' => runMinimaxAlgorithm_value_le cb rng hhi n b' m' a' b'' k')
              (cb.calculateTransitions b true)
              ⟨b, minimaxInitBest true, [], alpha, beta, k⟩ alpha
              (show alpha = max alpha NEG_INF by omega) halo hab hbhi
              (minimaxInitBest_ge true) (minimaxInitBest_le true)
            dsimp only at hloop
            have hIB : minimaxInitBest true = NEG_INF := rfl
            rw [hIB] at hloop
            have htu0 : NEG_INF ≤ minimaxValue cb n (cb.applyTransition b u) false :=
              minimaxValue_ge cb hlo n _ _
            have hval := minimaxValue_succ_max cb n b u us he1 he2 hts'
            have hmap : (cb.calculateTransitions b true).map
                (fun u' => minimaxValue cb n (cb.applyTransition b u') false) =
                minimaxValue cb n (cb.applyTransition b u) false ::
                us.map (fun u' => minimaxValue cb n (cb.applyTransition b u') false) := by
              rw [hts', List.map_cons]
            rw [hmap, List.foldl_cons, List.foldl_cons] at hloop
            rw [foldl_max_init] at hloop
            rw [show max NEG_INF (minimaxValue cb n (cb.applyTransition b u) false) =
                minimaxValue cb n (cb.applyTransition b u) false by omega] at hloop
            rw [hval]
            rcases hloop with ⟨hA, hB⟩
            constructor
            · exact hA
            · exact hB
          | false =>
            have hloop := loop_min_bounds cb rng n hundo
              (fun b' a' b'' k' ha hn hb => ih b' true a' b'' k' ha hn hb)
              (fun b' m' a' b'' k' => runMinimaxAlgorithm_value_ge cb rng hlo n b' m' a' b'' k')
              (fun b' m' a' b'' k' => runMinimaxAlgorithm_value_le cb rng hhi n b' m' a' b'' k')
              (cb.calculateTransitions b false)
              ⟨b, minimaxInitBest false, [], alpha, beta, k⟩ beta
              (show beta = min beta POS_INF by omega) hbhi hab halo
              (minimaxInitBest_ge false) (minimaxInitBest_le false)
            dsimp only at hloop
            have hIB : minimaxInitBest false = POS_INF := rfl
            rw [hIB] at hloop
            have htu0 : minimaxValue cb n (cb.applyTransition b u) true ≤ POS_INF :=
              minimaxValue_le cb hhi n _ _
            have hval := minimaxValue_succ_min cb n b u us he1 he2 hts'
            have hmap : (cb.calculateTransitions b false).map
                (fun u' => minimaxValue cb n (cb.applyTransition b u') true) =
                minimaxValue cb n (cb.applyTransition b u) true ::
                us.map (fun u' => minimaxValue cb n (cb.applyTransition b u') true) := by
              rw [hts', List.map_cons]
            rw [hmap, List.foldl_cons, List.foldl_cons] at hloop
            rw [foldl_min_init] at hloop
            rw [show min POS_INF (minimaxValue cb n (cb.applyTransition b u) true) =
                minimaxValue cb n (cb.applyTransition b u) true by omega] at hloop
            rw [hval]
            rcases hloop with ⟨hA, hB⟩
            constructor
            · exact hB
            · exact hA

/-- Counterexample to C1 as stated: with apply/undo a perfect inverse pair
but heuristics `10^10` and `2 * 10^10` above the `9e9` sentinel, the
alpha-beta engine prunes the second root child after the first already
exceeds `beta = 9e9`, and returns `10^10` while the exhaustive full minimax
over the same tree returns `2 * 10^10`. -/
theorem pruned_root_value_cx :
    (runMinimaxAlgorithm cbBig rngZero 1 [] true NEG_INF POS_INF 0).value = 10000000000 ∧
    minimaxValue cbBig 1 [] true = 20000000000 ∧
    (runMinimaxAlgorithm cbBig rngZero 1 [] true NEG_INF POS_INF 0).value ≠
      minimaxValue cbBig 1 [] true ∧
    (∀ b' u, cbBig.undoTransition (cbBig.applyTransition b' u) u = b') :=
  ⟨by decide, by decide, by decide, fun _ _ => rfl⟩

/-- C1 (amended): provided `undoTransition` exactly inverts `applyTransition`
and every heuristic value lies within the `±9e9` sentinels, the value the
alpha-beta engine computes at the root (with `alpha = -9e9`, `beta = 9e9`)
equals the value of the exhaustive full minimax over the same tree — the
cutoff changes only which nodes are visited, never the returned root
value. -/
theorem pruned_root_value_eq_full_minimax {T U : Type} (cb : Callbacks T U) (rng : Nat → Nat)
    (b : T) (maxDepth : Nat)
    (hundo : ∀ b' u, cb.undoTransition (cb.applyTransition b' u) u = b')
    (hlo : ∀ b', NEG_INF ≤ cb.calculateBoard b')
    (hhi : ∀ b', cb.calculateBoard b' ≤ POS_INF) :
    (runMinimaxAlgorithm cb rng maxDepth b true NEG_INF POS_INF 0).value =
      minimaxValue cb maxDepth b true := by
  obtain ⟨h1, h2⟩ := run_ab_bounds cb rng hundo hlo hhi maxDepth b true NEG_INF POS_INF 0
    (by decide) (le_refl _) (le_refl _)
  have hvlo := minimaxValue_ge cb hlo maxDepth b true
  have hvhi := minimaxValue_le cb hhi maxDepth b true
  omega

/-- Witness for C1 (amended) on the concrete `{5, 9, 9}` tree searched two
levels deep. -/
theorem pruned_root_value_eq_full_minimax_witness :
    (runMinimaxAlgorithm cbTri rngZero 2 [] true NEG_INF POS_INF 0).value =
      minimaxValue cbTri 2 [] true :=
  pruned_root_value_eq_full_minimax cbTri rngZero [] 2 (fun _ _ => rfl)
    (fun b' => by by_cases h : b' = [0] <;> simp [cbTri, h, NEG_INF])
    (fun b' => by by_cases h : b' = [0] <;> simp [cbTri, h, POS_INF])

/-! ### Callback order at a node -/

theorem foldl_stepTr_events {T U : Type} {isMax : Bool} {applyT undoT : T → U → T}
    {recurse : T → Int → Int → Nat → MMResult T U × List CEvent} :
    ∀ (l : List U) (p : LoopState T U × List CEvent),
      ∃ rest, (l.foldl (minimaxStepTr isMax applyT undoT recurse) p).2 = p.2 ++ rest := by
  intro l
  induction l with
  | nil => intro p; exact ⟨[], (List.append_nil _).symm⟩
  | cons u rest ih =>
    intro p
    rw [List.foldl_cons]
    obtain ⟨r1, hr1⟩ : ∃ r1, (minimaxStepTr isMax applyT undoT recurse p u).2 = p.2 ++ r1 := by
      rw [minimaxStepTr]
      split
      · exact ⟨[], (List.append_nil _).symm⟩
      · exact ⟨_, rfl⟩
    obtain ⟨r2, hr2⟩ := ih (minimaxStepTr isMax applyT undoT recurse p u)
    exact ⟨r1 ++ r2, by rw [hr2, hr1, List.append_assoc]⟩

/-- Counterexample to C7 as stated: at a root whose end state is nonzero
(`cbLost`, end state `-3`), `calculateTransitions` is invoked anyway — the
node's callback trace is exactly `[genCall, endCall]`, i.e. move generation
happens first and the end-state check second. -/
theorem gen_called_at_terminal_cx :
    CEvent.genCall ∈ (runMinimaxAlgorithmTr cbLost rngZero 1 [] true NEG_INF POS_INF 0).2 ∧
    cbLost.calculateEndState [] ≠ 0 ∧
    (runMinimaxAlgorithmTr cbLost rngZero 1 [] true NEG_INF POS_INF 0).2 =
      [CEvent.genCall, CEvent.endCall] :=
  ⟨by decide, by decide, by decide⟩

/-- C7 (amended): at every node with `depth < maxDepth` (any role, any
bounds) the engine invokes `calculateTransitions` first and
`calculateEndState` second — the node's callback trace always begins
`genCall :: endCall`; the end-state result still takes precedence over the
generated moves: a nonzero end state makes the node return the terminal
result even though the transitions were generated. -/
theorem gen_precedes_end_check {T U : Type} (cb : Callbacks T U) (rng : Nat → Nat)
    (fuel : Nat) (b : T) (m : Bool) (alpha beta : Int) (k : Nat) :
    (∃ rest, (runMinimaxAlgorithmTr cb rng (fuel + 1) b m alpha beta k).2 =
      CEvent.genCall :: CEvent.endCall :: rest) ∧
    (cb.calculateEndState b < 0 →
      (runMinimaxAlgorithmTr cb rng (fuel + 1) b m alpha beta k).1 =
        ⟨none, LOSS_SCORE, b, k⟩) ∧
    (cb.calculateEndState b > 0 →
      (runMinimaxAlgorithmTr cb rng (fuel + 1) b m alpha beta k).1 =
        ⟨none, WIN_SCORE, b, k⟩) := by
  refine ⟨?_, fun h => ?_, fun h => ?_⟩
  · rw [runMinimaxAlgorithmTr]
    split
    · exact ⟨[], rfl⟩
    · split
      · exact ⟨[], rfl⟩
      · split
        · exact ⟨[], rfl⟩
        · dsimp only
          obtain ⟨rest, hr⟩ := foldl_stepTr_events (cb.calculateTransitions b m)
            (⟨b, minimaxInitBest m, [], alpha, beta, k⟩, [CEvent.genCall, CEvent.endCall])
          refine ⟨rest, ?_⟩
          split <;> exact hr
  · rw [runMinimaxAlgorithmTr, if_pos h]
  · rw [runMinimaxAlgorithmTr, if_neg (by omega), if_pos h]

/-- Witness for C7 (amended) at the concrete lost root with a legal move. -/
theorem gen_precedes_end_check_witness :
    (∃ rest, (runMinimaxAlgorithmTr cbLost rngZero 1 [] true NEG_INF POS_INF 0).2 =
      CEvent.genCall :: CEvent.endCall :: rest) ∧
    (runMinimaxAlgorithmTr cbLost rngZero 1 [] true NEG_INF POS_INF 0).1 =
      ⟨none, LOSS_SCORE, [], 0⟩ :=
  ⟨(gen_precedes_end_check cbLost rngZero 0 [] true NEG_INF POS_INF 0).1,
   (gen_precedes_end_check cbLost rngZero 0 [] true NEG_INF POS_INF 0).2.1 (by decide)⟩
